import Mathlib

/-!
Verification of the admission-decision logic of the grafana-operator
webhook (src/main.go) against its natural-language specification.

The Go program deserializes JSON bodies into dynamically typed trees
(map[string]interface from encoding/json), strips three volatile paths,
and compares the three top-level sections metadata / spec / status with
reflect.DeepEqual.  The embedding below models:

  * the dynamic JSON value domain (Json),
  * Go map indexing (a missing key yields the nil interface, exactly as
    an explicit JSON null does, so both are Json.null under goIndex),
  * reflect.DeepEqual restricted to this domain (deepEqual),
  * cleanupMetadata / removeReconciledAt / the handler decision path of
    handleAdmissionReview, with json.Unmarshal kept abstract as a
    parameter (any function from raw bytes to an optional tree), and
  * the processed-total counters as an explicit Metrics state.
-/

namespace GrafanaWebhook

/-- Dynamic JSON value as produced by encoding/json into interface
values: null becomes the nil interface, objects become string-keyed
maps.  Numbers are modelled by an abstract scalar (Int); no claim
depends on the numeric policy. -/
inductive Json where
  | null : Json
  | bool (b : Bool) : Json
  | num (n : Int) : Json
  | str (s : String) : Json
  | arr (elems : List Json) : Json
  | obj (fields : List (String × Json)) : Json

/-- A Go map[string]interface value: association list of fields.  Go
maps have no duplicate keys; where a proof needs that invariant it is
an explicit hypothesis (keysNodup / Json.wf). -/
abbrev ObjMap := List (String × Json)

/-- First binding of a key, i.e. Go map lookup (unique key in real Go
maps). -/
def lookupKey : ObjMap → String → Option Json
  | [], _ => none
  | (k, v) :: rest, key => if k = key then some v else lookupKey rest key

/-- Go map indexing m[key]: a missing key yields the zero value of
interface, the nil interface, which is also how an explicit JSON null
is stored — both are Json.null. -/
def goIndex (m : ObjMap) (key : String) : Json :=
  match lookupKey m key with
  | some v => v
  | none => Json.null

/-- In-place update of the value bound to a key (Go: the inner map is
mutated, the binding keeps pointing at it). -/
def setKey : ObjMap → String → Json → ObjMap
  | [], _, _ => []
  | (k, v) :: rest, key, w =>
    if k = key then (k, w) :: setKey rest key w else (k, v) :: setKey rest key w

/-- Go delete(m, key): the binding of the key is removed; deleting an
absent key is a no-op. -/
def eraseKey : ObjMap → String → ObjMap
  | [], _ => []
  | (k, v) :: rest, key =>
    if k = key then eraseKey rest key else (k, v) :: eraseKey rest key

/-- Does some binding use this key. -/
def hasKey : ObjMap → String → Bool
  | [], _ => false
  | (k, _) :: rest, key => if k = key then true else hasKey rest key

mutual

/-- reflect.DeepEqual restricted to the dynamic JSON domain.
Scalars compare by value (and dynamic type: distinct constructors are
never equal); slices elementwise in order; maps by equal length plus
every key of the left map bound in the right map to a deeply equal
value — insertion order is irrelevant.  Two nil interfaces
(Json.null) are deeply equal. -/
def deepEqual : Json → Json → Bool
  | .null, .null => true
  | .bool a, .bool b => a == b
  | .num a, .num b => a == b
  | .str a, .str b => a == b
  | .arr xs, .arr ys => deepEqualArr xs ys
  | .obj a, .obj b => (a.length == b.length) && deepSubmap a b
  | _, _ => false

/-- Elementwise, order-sensitive deep equality of slices. -/
def deepEqualArr : List Json → List Json → Bool
  | [], [] => true
  | x :: xs, y :: ys => deepEqual x y && deepEqualArr xs ys
  | _, _ => false

/-- Every binding of the left map is matched by a deeply equal binding
in the right map. -/
def deepSubmap : ObjMap → ObjMap → Bool
  | [], _ => true
  | (k, v) :: rest, b =>
    (match lookupKey b k with
     | some w => deepEqual v w
     | none => false) && deepSubmap rest b
end

/-- No key is bound twice — the invariant of every Go map. -/
def keysNodup : ObjMap → Bool
  | [] => true
  | (k, _) :: rest => !(hasKey rest k) && keysNodup rest

mutual

/-- A tree that can be the image of a Go map/slice value: every object
level has pairwise distinct keys.  json.Unmarshal only ever produces
such trees. -/
def Json.wf : Json → Bool
  | .null => true
  | .bool _ => true
  | .num _ => true
  | .str _ => true
  | .arr xs => wfElems xs
  | .obj kvs => keysNodup kvs && wfFields kvs

/-- All elements of a slice are well-formed. -/
def wfElems : List Json → Bool
  | [] => true
  | x :: xs => x.wf && wfElems xs

/-- All field values of an object are well-formed. -/
def wfFields : ObjMap → Bool
  | [] => true
  | (_, v) :: rest => v.wf && wfFields rest

end

/-- cleanupMetadata from main.go: when the metadata entry is (asserts
to) a string-keyed map, delete managedFields and generation from it;
otherwise do nothing. -/
def cleanupMetadata (obj : ObjMap) : ObjMap :=
  match lookupKey obj "metadata" with
  | some (.obj metadata) =>
    setKey obj "metadata"
      (.obj (eraseKey (eraseKey metadata "managedFields") "generation"))
  | _ => obj

/-- removeReconciledAt from main.go: when the status entry is a
string-keyed map, delete reconciledAt from it; otherwise do nothing. -/
def removeReconciledAt (obj : ObjMap) : ObjMap :=
  match lookupKey obj "status" with
  | some (.obj statusMap) =>
    setKey obj "status" (.obj (eraseKey statusMap "reconciledAt"))
  | _ => obj

/-- The normalization the handler applies to each parsed object before
comparison: cleanupMetadata then removeReconciledAt (lines 104-109 of
main.go). -/
def normalize (obj : ObjMap) : ObjMap :=
  removeReconciledAt (cleanupMetadata obj)

/-- One per-section change flag of the handler:
reflect.DeepEqual(oldObj[s], newObj[s]) on the (already normalized)
trees, negated in the code; here the equality itself. -/
def sectionEq (o n : ObjMap) (s : String) : Bool :=
  deepEqual (goIndex o s) (goIndex n s)

/-- AdmissionRequest fields the handler reads: UID, Kind.Kind,
Operation (a string constant such as UPDATE in the Go API), and the
raw bytes of the old and proposed objects. -/
structure AdmissionRequest where
  uid : String
  kindKind : String
  operation : String
  oldObjectRaw : String
  objectRaw : String

/-- The AdmissionReview envelope: in the Go type the request field is
a pointer, nil when the JSON body carries no request object. -/
structure Envelope where
  request : Option AdmissionRequest

/-- metav1.Status subset the handler fills on a denial. -/
structure ResultStatus where
  status : String
  message : String
  code : Nat

/-- AdmissionResponse subset the handler fills. -/
structure AdmissionResponse where
  uid : String
  allowed : Bool
  result : Option ResultStatus

/-- Outgoing AdmissionReview envelope (TypeMeta plus response). -/
structure AdmissionReviewOut where
  apiVersion : String
  kind : String
  response : AdmissionResponse

/-- The outgoing envelope as built at lines 72-81 of main.go, with the
given response. -/
def wrapReview (resp : AdmissionResponse) : AdmissionReviewOut :=
  { apiVersion := "admission.k8s.io/v1", kind := "AdmissionReview", response := resp }

/-- The prometheus processed-total counter vector: one counter per
value of the change label. -/
structure Metrics where
  processedTrue : Nat
  processedFalse : Nat

/-- What one call of handleAdmissionReview does at the transport
level: write an HTTP error status (http.Error), panic on the nil
Request pointer dereference at line 78 (the Go http server drops the
connection without a response), or send an AdmissionReview body. -/
inductive Outcome where
  | httpError (code : Nat) (message : String) : Outcome
  | nilPanic : Outcome
  | respond (review : AdmissionReviewOut) : Outcome

/-- handleAdmissionReview from main.go, after the body has been read.
json.Unmarshal of the envelope and of the raw objects is abstract: any
function returning an optional parse result stands for it (none is a
parse error).  Returns the transport outcome and the updated
counters. -/
def handleAdmissionReview
    (unmarshalReview : String → Option Envelope)
    (parseObject : String → Option ObjMap)
    (body : String) (m : Metrics) : Outcome × Metrics :=
  match unmarshalReview body with
  | none => (.httpError 400 "failed to unmarshal request", m)
  | some env =>
    match env.request with
    | none => (.nilPanic, m)
    | some req =>
      let defaultResp : AdmissionResponse :=
        { uid := req.uid, allowed := true, result := none }
      if req.operation != "UPDATE" || req.kindKind != "Application" then
        (.respond (wrapReview defaultResp), m)
      else
        match parseObject req.oldObjectRaw with
        | none => (.httpError 500 "failed to parse old object", m)
        | some oldObj =>
          match parseObject req.objectRaw with
          | none => (.httpError 500 "failed to parse new object", m)
          | some newObj =>
            let oldN := normalize oldObj
            let newN := normalize newObj
            let metadataChanged := !sectionEq oldN newN "metadata"
            let specChanged := !sectionEq oldN newN "spec"
            let statusChanged := !sectionEq oldN newN "status"
            if !metadataChanged && !specChanged && !statusChanged then
              (.respond (wrapReview
                 { uid := req.uid, allowed := false,
                   result := some { status := "Success", message := "Update successful.", code := 200 } }),
               { m with processedFalse := m.processedFalse + 1 })
            else
              (.respond (wrapReview { uid := req.uid, allowed := true, result := none }),
               { m with processedTrue := m.processedTrue + 1 })

/-- Classification of one request: none when no counter is touched
(envelope error, nil request, pass-through, object parse error), some
flag when the decision path runs, the flag being
metadataChanged or specChanged or statusChanged — the change label
of the counter that is incremented. -/
def decisionLabel
    (unmarshalReview : String → Option Envelope)
    (parseObject : String → Option ObjMap)
    (body : String) : Option Bool :=
  match unmarshalReview body with
  | none => none
  | some env =>
    match env.request with
    | none => none
    | some req =>
      if req.operation != "UPDATE" || req.kindKind != "Application" then none
      else
        match parseObject req.oldObjectRaw with
        | none => none
        | some oldObj =>
          match parseObject req.objectRaw with
          | none => none
          | some newObj =>
            let oldN := normalize oldObj
            let newN := normalize newObj
            some (!(sectionEq oldN newN "metadata"
                    && sectionEq oldN newN "spec"
                    && sectionEq oldN newN "status"))

/-- Serve a sequence of request bodies, threading the counters. -/
def runRequests
    (unmarshalReview : String → Option Envelope)
    (parseObject : String → Option ObjMap)
    (bodies : List String) (m : Metrics) : Metrics :=
  bodies.foldl (fun acc body => (handleAdmissionReview unmarshalReview parseObject body acc).2) m

/-! Basic lemmas about the Go-map operations. -/

theorem lookupKey_setKey_ne (m : ObjMap) (k k' : String) (v : Json) (h : k' ≠ k) :
    lookupKey (setKey m k v) k' = lookupKey m k' := by
  induction m with
  | nil => rfl
  | cons p rest ih =>
    obtain ⟨pk, pv⟩ := p
    by_cases hk : pk = k
    · subst hk
      simp [setKey, lookupKey, Ne.symm h, ih]
    · by_cases hk' : pk = k'
      · simp [setKey, lookupKey, hk, hk', h]
      · simp [setKey, lookupKey, hk, hk', ih]

theorem lookupKey_setKey_eq (m : ObjMap) (k : String) (v : Json) :
    lookupKey (setKey m k v) k = (lookupKey m k).map (fun _ => v) := by
  induction m with
  | nil => rfl
  | cons p rest ih =>
    obtain ⟨pk, pv⟩ := p
    by_cases hk : pk = k
    · simp [setKey, lookupKey, hk]
    · simp [setKey, lookupKey, hk, ih]

theorem setKey_setKey (m : ObjMap) (k : String) (v w : Json) :
    setKey (setKey m k v) k w = setKey m k w := by
  induction m with
  | nil => rfl
  | cons p rest ih =>
    obtain ⟨pk, pv⟩ := p
    by_cases hk : pk = k <;> simp [setKey, hk, ih]

theorem setKey_comm (m : ObjMap) (a b : String) (v w : Json) (h : a ≠ b) :
    setKey (setKey m a v) b w = setKey (setKey m b w) a v := by
  induction m with
  | nil => rfl
  | cons p rest ih =>
    obtain ⟨pk, pv⟩ := p
    by_cases ha : pk = a
    · subst ha
      simp [setKey, h, Ne.symm h, ih]
    · by_cases hb : pk = b
      · subst hb
        simp [setKey, ha, Ne.symm h, h, ih]
      · simp [setKey, ha, hb, ih]

theorem lookupKey_eraseKey_ne (m : ObjMap) (k k' : String) (h : k' ≠ k) :
    lookupKey (eraseKey m k) k' = lookupKey m k' := by
  induction m with
  | nil => rfl
  | cons p rest ih =>
    obtain ⟨pk, pv⟩ := p
    by_cases hk : pk = k
    · subst hk
      simp [eraseKey, lookupKey, Ne.symm h, ih]
    · by_cases hk' : pk = k'
      · simp [eraseKey, lookupKey, hk, hk', h]
      · simp [eraseKey, lookupKey, hk, hk', ih]

theorem lookupKey_eraseKey_self (m : ObjMap) (k : String) :
    lookupKey (eraseKey m k) k = none := by
  induction m with
  | nil => rfl
  | cons p rest ih =>
    obtain ⟨pk, pv⟩ := p
    by_cases hk : pk = k <;> simp [eraseKey, lookupKey, hk, ih]

theorem eraseKey_comm (m : ObjMap) (a b : String) :
    eraseKey (eraseKey m a) b = eraseKey (eraseKey m b) a := by
  induction m with
  | nil => rfl
  | cons p rest ih =>
    obtain ⟨pk, pv⟩ := p
    by_cases ha : pk = a
    · subst ha
      by_cases hb : pk = b
      · subst hb
        simp [eraseKey, ih]
      · simp [eraseKey, hb, ih]
    · by_cases hb : pk = b
      · subst hb
        simp [eraseKey, ha, ih]
      · simp [eraseKey, ha, hb, ih]

theorem eraseKey_idem (m : ObjMap) (k : String) :
    eraseKey (eraseKey m k) k = eraseKey m k := by
  induction m with
  | nil => rfl
  | cons p rest ih =>
    obtain ⟨pk, pv⟩ := p
    by_cases hk : pk = k <;> simp [eraseKey, hk, ih]

theorem eraseKey_of_not_has (m : ObjMap) (k : String) (h : hasKey m k = false) :
    eraseKey m k = m := by
  induction m with
  | nil => rfl
  | cons p rest ih =>
    obtain ⟨pk, pv⟩ := p
    by_cases hk : pk = k
    · simp [hasKey, hk] at h
    · simp [hasKey, hk] at h
      simp [eraseKey, hk, ih h]

/-! Characterizations of the two normalization passes, and idempotence. -/

theorem cleanupMetadata_of_obj (obj : ObjMap) (mm : ObjMap)
    (h : lookupKey obj "metadata" = some (.obj mm)) :
    cleanupMetadata obj =
      setKey obj "metadata" (.obj (eraseKey (eraseKey mm "managedFields") "generation")) := by
  unfold cleanupMetadata
  rw [h]

theorem cleanupMetadata_of_not_obj (obj : ObjMap)
    (h : ∀ mm, lookupKey obj "metadata" ≠ some (.obj mm)) :
    cleanupMetadata obj = obj := by
  unfold cleanupMetadata
  split
  · next mm hm => exact absurd hm (h mm)
  · rfl

theorem removeReconciledAt_of_obj (obj : ObjMap) (ss : ObjMap)
    (h : lookupKey obj "status" = some (.obj ss)) :
    removeReconciledAt obj = setKey obj "status" (.obj (eraseKey ss "reconciledAt")) := by
  unfold removeReconciledAt
  rw [h]

theorem removeReconciledAt_of_not_obj (obj : ObjMap)
    (h : ∀ ss, lookupKey obj "status" ≠ some (.obj ss)) :
    removeReconciledAt obj = obj := by
  unfold removeReconciledAt
  split
  · next ss hs => exact absurd hs (h ss)
  · rfl

theorem cleanupMetadata_idem (obj : ObjMap) :
    cleanupMetadata (cleanupMetadata obj) = cleanupMetadata obj := by
  by_cases h : ∃ mm, lookupKey obj "metadata" = some (.obj mm)
  · obtain ⟨mm, hm⟩ := h
    rw [cleanupMetadata_of_obj obj mm hm]
    have h2 : lookupKey
        (setKey obj "metadata" (.obj (eraseKey (eraseKey mm "managedFields") "generation")))
        "metadata" = some (.obj (eraseKey (eraseKey mm "managedFields") "generation")) := by
      rw [lookupKey_setKey_eq, hm]
      rfl
    rw [cleanupMetadata_of_obj _ _ h2, setKey_setKey]
    rw [eraseKey_comm (eraseKey mm "managedFields") "generation" "managedFields"]
    rw [eraseKey_idem mm "managedFields"]
    rw [eraseKey_idem (eraseKey mm "managedFields") "generation"]
  · push_neg at h
    rw [cleanupMetadata_of_not_obj obj h, cleanupMetadata_of_not_obj obj h]

theorem removeReconciledAt_idem (obj : ObjMap) :
    removeReconciledAt (removeReconciledAt obj) = removeReconciledAt obj := by
  by_cases h : ∃ ss, lookupKey obj "status" = some (.obj ss)
  · obtain ⟨ss, hs⟩ := h
    rw [removeReconciledAt_of_obj obj ss hs]
    have h2 : lookupKey (setKey obj "status" (.obj (eraseKey ss "reconciledAt"))) "status"
        = some (.obj (eraseKey ss "reconciledAt")) := by
      rw [lookupKey_setKey_eq, hs]
      rfl
    rw [removeReconciledAt_of_obj _ _ h2, setKey_setKey, eraseKey_idem]
  · push_neg at h
    rw [removeReconciledAt_of_not_obj obj h, removeReconciledAt_of_not_obj obj h]

theorem cleanup_removeRec_comm (obj : ObjMap) :
    cleanupMetadata (removeReconciledAt obj) = removeReconciledAt (cleanupMetadata obj) := by
  by_cases hm : ∃ mm, lookupKey obj "metadata" = some (.obj mm)
  · obtain ⟨mm, hmm⟩ := hm
    by_cases hs : ∃ ss, lookupKey obj "status" = some (.obj ss)
    · obtain ⟨ss, hss⟩ := hs
      rw [removeReconciledAt_of_obj obj ss hss, cleanupMetadata_of_obj obj mm hmm]
      have hm2 : lookupKey (setKey obj "status" (.obj (eraseKey ss "reconciledAt"))) "metadata"
          = some (.obj mm) := by
        rw [lookupKey_setKey_ne _ _ _ _ (by decide), hmm]
      have hs2 : lookupKey
          (setKey obj "metadata" (.obj (eraseKey (eraseKey mm "managedFields") "generation")))
          "status" = some (.obj ss) := by
        rw [lookupKey_setKey_ne _ _ _ _ (by decide), hss]
      rw [cleanupMetadata_of_obj _ _ hm2, removeReconciledAt_of_obj _ _ hs2]
      exact setKey_comm obj "status" "metadata" _ _ (by decide)
    · push_neg at hs
      rw [removeReconciledAt_of_not_obj obj hs, cleanupMetadata_of_obj obj mm hmm]
      have hs2 : ∀ ss, lookupKey
          (setKey obj "metadata" (.obj (eraseKey (eraseKey mm "managedFields") "generation")))
          "status" ≠ some (.obj ss) := by
        intro ss
        rw [lookupKey_setKey_ne _ _ _ _ (by decide)]
        exact hs ss
      rw [removeReconciledAt_of_not_obj _ hs2]
  · push_neg at hm
    by_cases hs : ∃ ss, lookupKey obj "status" = some (.obj ss)
    · obtain ⟨ss, hss⟩ := hs
      rw [removeReconciledAt_of_obj obj ss hss, cleanupMetadata_of_not_obj obj hm]
      have hm2 : ∀ mm, lookupKey (setKey obj "status" (.obj (eraseKey ss "reconciledAt")))
          "metadata" ≠ some (.obj mm) := by
        intro mm
        rw [lookupKey_setKey_ne _ _ _ _ (by decide)]
        exact hm mm
      rw [cleanupMetadata_of_not_obj _ hm2, removeReconciledAt_of_obj obj ss hss]
    · push_neg at hs
      rw [removeReconciledAt_of_not_obj obj hs, cleanupMetadata_of_not_obj obj hm,
        removeReconciledAt_of_not_obj obj hs]

theorem normalize_idem_aux (obj : ObjMap) :
    normalize (normalize obj) = normalize obj := by
  unfold normalize
  rw [cleanup_removeRec_comm (cleanupMetadata obj), removeReconciledAt_idem,
    cleanupMetadata_idem]

/-! Well-formedness (Go-map key uniqueness) is preserved by the
normalization operations, and deep equality is reflexive on
well-formed trees. -/

theorem hasKey_eraseKey_false (m : ObjMap) (k k' : String) (h : hasKey m k' = false) :
    hasKey (eraseKey m k) k' = false := by
  induction m with
  | nil => rfl
  | cons p rest ih =>
    obtain ⟨pk, pv⟩ := p
    by_cases hk' : pk = k'
    · simp [hasKey, hk'] at h
    · simp [hasKey, hk'] at h
      by_cases hk : pk = k <;> simp [eraseKey, hasKey, hk, hk', ih h]

theorem keysNodup_eraseKey (m : ObjMap) (k : String) (h : keysNodup m = true) :
    keysNodup (eraseKey m k) = true := by
  induction m with
  | nil => rfl
  | cons p rest ih =>
    obtain ⟨pk, pv⟩ := p
    simp only [keysNodup, Bool.and_eq_true, Bool.not_eq_true'] at h
    by_cases hk : pk = k
    · simp [eraseKey, hk, ih h.2]
    · simp only [eraseKey, hk, if_false, keysNodup, Bool.and_eq_true, Bool.not_eq_true']
      exact ⟨hasKey_eraseKey_false rest k pk h.1, ih h.2⟩

theorem hasKey_setKey (m : ObjMap) (k k' : String) (v : Json) :
    hasKey (setKey m k v) k' = hasKey m k' := by
  induction m with
  | nil => rfl
  | cons p rest ih =>
    obtain ⟨pk, pv⟩ := p
    by_cases hk : pk = k
    · subst hk
      by_cases hk' : pk = k' <;> simp [setKey, hasKey, hk', ih]
    · by_cases hk' : pk = k'
      · subst hk'
        simp [setKey, hasKey, hk, ih]
      · simp [setKey, hasKey, hk, hk', ih]

theorem keysNodup_setKey (m : ObjMap) (k : String) (v : Json) (h : keysNodup m = true) :
    keysNodup (setKey m k v) = true := by
  induction m with
  | nil => rfl
  | cons p rest ih =>
    obtain ⟨pk, pv⟩ := p
    simp only [keysNodup, Bool.and_eq_true, Bool.not_eq_true'] at h
    by_cases hk : pk = k
    · subst hk
      simp [setKey, keysNodup, hasKey_setKey, h.1, ih h.2]
    · simp [setKey, keysNodup, hk, hasKey_setKey, h.1, ih h.2]

theorem wfFields_eraseKey (m : ObjMap) (k : String) (h : wfFields m = true) :
    wfFields (eraseKey m k) = true := by
  induction m with
  | nil => rfl
  | cons p rest ih =>
    obtain ⟨pk, pv⟩ := p
    simp only [wfFields, Bool.and_eq_true] at h
    by_cases hk : pk = k <;> simp [eraseKey, wfFields, hk, h.1, ih h.2]

theorem wfFields_setKey (m : ObjMap) (k : String) (v : Json)
    (h : wfFields m = true) (hv : Json.wf v = true) :
    wfFields (setKey m k v) = true := by
  induction m with
  | nil => rfl
  | cons p rest ih =>
    obtain ⟨pk, pv⟩ := p
    simp only [wfFields, Bool.and_eq_true] at h
    by_cases hk : pk = k <;> simp [setKey, wfFields, hk, h.1, hv, ih h.2]

theorem wfFields_lookupKey (m : ObjMap) (k : String) (v : Json)
    (h : wfFields m = true) (hl : lookupKey m k = some v) : Json.wf v = true := by
  induction m with
  | nil => simp [lookupKey] at hl
  | cons p rest ih =>
    obtain ⟨pk, pv⟩ := p
    simp only [wfFields, Bool.and_eq_true] at h
    by_cases hk : pk = k
    · simp [lookupKey, hk] at hl
      exact hl ▸ h.1
    · simp [lookupKey, hk] at hl
      exact ih h.2 hl

theorem wf_cleanupMetadata (m : ObjMap) (h : Json.wf (.obj m) = true) :
    Json.wf (.obj (cleanupMetadata m)) = true := by
  simp only [Json.wf, Bool.and_eq_true] at h ⊢
  by_cases hm : ∃ mm, lookupKey m "metadata" = some (.obj mm)
  · obtain ⟨mm, hmm⟩ := hm
    rw [cleanupMetadata_of_obj m mm hmm]
    have hv : Json.wf (.obj mm) = true := wfFields_lookupKey m "metadata" _ h.2 hmm
    simp only [Json.wf, Bool.and_eq_true] at hv
    have hv' : Json.wf (.obj (eraseKey (eraseKey mm "managedFields") "generation")) = true := by
      simp only [Json.wf, Bool.and_eq_true]
      exact ⟨keysNodup_eraseKey _ _ (keysNodup_eraseKey _ _ hv.1),
        wfFields_eraseKey _ _ (wfFields_eraseKey _ _ hv.2)⟩
    exact ⟨keysNodup_setKey m _ _ h.1, wfFields_setKey m _ _ h.2 hv'⟩
  · push_neg at hm
    rw [cleanupMetadata_of_not_obj m hm]
    exact h

theorem wf_removeReconciledAt (m : ObjMap) (h : Json.wf (.obj m) = true) :
    Json.wf (.obj (removeReconciledAt m)) = true := by
  simp only [Json.wf, Bool.and_eq_true] at h ⊢
  by_cases hs : ∃ ss, lookupKey m "status" = some (.obj ss)
  · obtain ⟨ss, hss⟩ := hs
    rw [removeReconciledAt_of_obj m ss hss]
    have hv : Json.wf (.obj ss) = true := wfFields_lookupKey m "status" _ h.2 hss
    simp only [Json.wf, Bool.and_eq_true] at hv
    have hv' : Json.wf (.obj (eraseKey ss "reconciledAt")) = true := by
      simp only [Json.wf, Bool.and_eq_true]
      exact ⟨keysNodup_eraseKey _ _ hv.1, wfFields_eraseKey _ _ hv.2⟩
    exact ⟨keysNodup_setKey m _ _ h.1, wfFields_setKey m _ _ h.2 hv'⟩
  · push_neg at hs
    rw [removeReconciledAt_of_not_obj m hs]
    exact h

theorem wf_normalize (m : ObjMap) (h : Json.wf (.obj m) = true) :
    Json.wf (.obj (normalize m)) = true :=
  wf_removeReconciledAt _ (wf_cleanupMetadata m h)

theorem wf_goIndex (m : ObjMap) (s : String) (h : Json.wf (.obj m) = true) :
    Json.wf (goIndex m s) = true := by
  simp only [Json.wf, Bool.and_eq_true] at h
  unfold goIndex
  split
  · next v hv => exact wfFields_lookupKey m s v h.2 hv
  · rfl

theorem mem_hasKey (m : ObjMap) (k : String) (v : Json) (h : (k, v) ∈ m) :
    hasKey m k = true := by
  induction m with
  | nil => simp at h
  | cons p rest ih =>
    obtain ⟨pk, pv⟩ := p
    rcases List.mem_cons.mp h with h1 | h2
    · obtain ⟨rfl, rfl⟩ := Prod.mk.injEq .. ▸ h1
      simp [hasKey]
    · by_cases hk : pk = k <;> simp [hasKey, hk, ih h2]

theorem lookupKey_of_mem_nodup (m : ObjMap) (k : String) (v : Json)
    (hn : keysNodup m = true) (h : (k, v) ∈ m) : lookupKey m k = some v := by
  induction m with
  | nil => simp at h
  | cons p rest ih =>
    obtain ⟨pk, pv⟩ := p
    simp only [keysNodup, Bool.and_eq_true, Bool.not_eq_true'] at hn
    rcases List.mem_cons.mp h with h1 | h2
    · obtain ⟨rfl, rfl⟩ := Prod.mk.injEq .. ▸ h1
      simp [lookupKey]
    · by_cases hk : pk = k
      · subst hk
        exact absurd (mem_hasKey rest pk v h2) (by simp [hn.1])
      · simp [lookupKey, hk, ih hn.2 h2]

mutual

theorem deepEqual_refl : ∀ (j : Json), Json.wf j = true → deepEqual j j = true
  | .null, _ => rfl
  | .bool _, _ => by simp [deepEqual]
  | .num _, _ => by simp [deepEqual]
  | .str _, _ => by simp [deepEqual]
  | .arr xs, h => by
    have hx : wfElems xs = true := by simpa [Json.wf] using h
    simpa [deepEqual] using deepEqualArr_refl xs hx
  | .obj kvs, h => by
    have hh : keysNodup kvs = true ∧ wfFields kvs = true := by
      simpa [Json.wf, Bool.and_eq_true] using h
    have hsub : deepSubmap kvs kvs = true :=
      deepSubmap_full kvs kvs hh.2 (fun k v hm => lookupKey_of_mem_nodup kvs k v hh.1 hm)
    simp [deepEqual, hsub]

theorem deepEqualArr_refl : ∀ (xs : List Json), wfElems xs = true → deepEqualArr xs xs = true
  | [], _ => rfl
  | x :: xs, h => by
    have hh : Json.wf x = true ∧ wfElems xs = true := by
      simpa [wfElems, Bool.and_eq_true] using h
    simp [deepEqualArr, deepEqual_refl x hh.1, deepEqualArr_refl xs hh.2]

theorem deepSubmap_full : ∀ (a b : ObjMap), wfFields a = true →
    (∀ k v, (k, v) ∈ a → lookupKey b k = some v) → deepSubmap a b = true
  | [], _, _, _ => rfl
  | (k, v) :: rest, b, h, hl => by
    have hh : Json.wf v = true ∧ wfFields rest = true := by
      simpa [wfFields, Bool.and_eq_true] using h
    have hk : lookupKey b k = some v := hl k v (by simp)
    have hrest : deepSubmap rest b = true :=
      deepSubmap_full rest b hh.2 (fun k' v' hm => hl k' v' (by simp [hm]))
    simp [deepSubmap, hk, deepEqual_refl v hh.1, hrest]

end

/-! Branch characterizations of the handler. -/

theorem handle_decided
    (u : String → Option Envelope) (p : String → Option ObjMap)
    (body : String) (env : Envelope) (req : AdmissionRequest)
    (oldObj newObj : ObjMap) (m : Metrics)
    (hu : u body = some env) (hr : env.request = some req)
    (hop : req.operation = "UPDATE") (hk : req.kindKind = "Application")
    (ho : p req.oldObjectRaw = some oldObj) (hn : p req.objectRaw = some newObj) :
    handleAdmissionReview u p body m =
      if sectionEq (normalize oldObj) (normalize newObj) "metadata"
         && sectionEq (normalize oldObj) (normalize newObj) "spec"
         && sectionEq (normalize oldObj) (normalize newObj) "status" then
        (.respond (wrapReview ⟨req.uid, false, some ⟨"Success", "Update successful.", 200⟩⟩),
         ⟨m.processedTrue, m.processedFalse + 1⟩)
      else
        (.respond (wrapReview ⟨req.uid, true, none⟩),
         ⟨m.processedTrue + 1, m.processedFalse⟩) := by
  unfold handleAdmissionReview
  simp only [hu, hr, ho, hn, hop, hk]
  simp [Bool.not_not]

theorem handle_passthrough
    (u : String → Option Envelope) (p : String → Option ObjMap)
    (body : String) (env : Envelope) (req : AdmissionRequest) (m : Metrics)
    (hu : u body = some env) (hr : env.request = some req)
    (hor : req.operation ≠ "UPDATE" ∨ req.kindKind ≠ "Application") :
    handleAdmissionReview u p body m =
      (.respond (wrapReview ⟨req.uid, true, none⟩), m) := by
  have hc : (req.operation != "UPDATE" || req.kindKind != "Application") = true := by
    rcases hor with h | h <;> simp [h]
  unfold handleAdmissionReview
  simp only [hu, hr, hc]
  rfl

theorem handle_unmarshal_err
    (u : String → Option Envelope) (p : String → Option ObjMap)
    (body : String) (m : Metrics) (hu : u body = none) :
    handleAdmissionReview u p body m = (.httpError 400 "failed to unmarshal request", m) := by
  unfold handleAdmissionReview
  simp only [hu]

theorem handle_nil_request
    (u : String → Option Envelope) (p : String → Option ObjMap)
    (body : String) (env : Envelope) (m : Metrics)
    (hu : u body = some env) (hr : env.request = none) :
    handleAdmissionReview u p body m = (.nilPanic, m) := by
  unfold handleAdmissionReview
  simp only [hu, hr]

theorem handle_parse_old_err
    (u : String → Option Envelope) (p : String → Option ObjMap)
    (body : String) (env : Envelope) (req : AdmissionRequest) (m : Metrics)
    (hu : u body = some env) (hr : env.request = some req)
    (hop : req.operation = "UPDATE") (hk : req.kindKind = "Application")
    (ho : p req.oldObjectRaw = none) :
    handleAdmissionReview u p body m = (.httpError 500 "failed to parse old object", m) := by
  unfold handleAdmissionReview
  simp only [hu, hr, ho, hop, hk]
  simp

theorem handle_parse_new_err
    (u : String → Option Envelope) (p : String → Option ObjMap)
    (body : String) (env : Envelope) (req : AdmissionRequest)
    (oldObj : ObjMap) (m : Metrics)
    (hu : u body = some env) (hr : env.request = some req)
    (hop : req.operation = "UPDATE") (hk : req.kindKind = "Application")
    (ho : p req.oldObjectRaw = some oldObj) (hn : p req.objectRaw = none) :
    handleAdmissionReview u p body m = (.httpError 500 "failed to parse new object", m) := by
  unfold handleAdmissionReview
  simp only [hu, hr, ho, hn, hop, hk]
  simp

/-! Counter bookkeeping. -/

theorem handle_metrics
    (u : String → Option Envelope) (p : String → Option ObjMap)
    (body : String) (m : Metrics) :
    (handleAdmissionReview u p body m).2 =
      match decisionLabel u p body with
      | none => m
      | some true => ⟨m.processedTrue + 1, m.processedFalse⟩
      | some false => ⟨m.processedTrue, m.processedFalse + 1⟩ := by
  unfold handleAdmissionReview decisionLabel
  rcases hub : u body with _ | env
  · simp [hub]
  · rcases hreq : env.request with _ | req
    · simp [hub, hreq]
    · by_cases hmix : (req.operation != "UPDATE" || req.kindKind != "Application") = true
      · simp [hub, hreq, hmix]
      · rcases hpo : p req.oldObjectRaw with _ | oldObj
        · simp [hub, hreq, hmix, hpo]
        · rcases hpn : p req.objectRaw with _ | newObj
          · simp [hub, hreq, hmix, hpo, hpn]
          · by_cases hflag : (sectionEq (normalize oldObj) (normalize newObj) "metadata"
                && sectionEq (normalize oldObj) (normalize newObj) "spec"
                && sectionEq (normalize oldObj) (normalize newObj) "status") = true
            · simp [hub, hreq, hmix, hpo, hpn, hflag, Bool.not_not]
            · simp only [Bool.not_eq_true] at hflag
              simp [hub, hreq, hmix, hpo, hpn, hflag, Bool.not_not]

/-- How many of the bodies run the decision path and produce the given
change label. -/
def countDecided
    (u : String → Option Envelope) (p : String → Option ObjMap)
    (flag : Bool) : List String → Nat
  | [] => 0
  | b :: rest =>
    (if decisionLabel u p b = some flag then 1 else 0) + countDecided u p flag rest

theorem runRequests_spec
    (u : String → Option Envelope) (p : String → Option ObjMap)
    (bodies : List String) (m : Metrics) :
    runRequests u p bodies m =
      ⟨m.processedTrue + countDecided u p true bodies,
       m.processedFalse + countDecided u p false bodies⟩ := by
  induction bodies generalizing m with
  | nil => simp [runRequests, countDecided]
  | cons b rest ih =>
    have hstep : (handleAdmissionReview u p b m).2 =
        match decisionLabel u p b with
        | none => m
        | some true => ⟨m.processedTrue + 1, m.processedFalse⟩
        | some false => ⟨m.processedTrue, m.processedFalse + 1⟩ := handle_metrics u p b m
    simp only [runRequests, List.foldl_cons] at *
    rw [hstep]
    rcases hd : decisionLabel u p b with _ | flag
    · simp [hd, countDecided, ih]
    · cases flag
      · simp only [hd]
        rw [ih]
        simp [countDecided, hd]
        omega
      · simp only [hd]
        rw [ih]
        simp [countDecided, hd]
        omega

theorem countDecided_total
    (u : String → Option Envelope) (p : String → Option ObjMap)
    (bodies : List String) (hdec : ∀ b ∈ bodies, decisionLabel u p b ≠ none) :
    countDecided u p true bodies + countDecided u p false bodies = bodies.length := by
  induction bodies with
  | nil => rfl
  | cons b rest ih =>
    have hb := hdec b (by simp)
    have hrest : ∀ b ∈ rest, decisionLabel u p b ≠ none :=
      fun x hx => hdec x (by simp [hx])
    rcases hd : decisionLabel u p b with _ | flag
    · exact absurd hd hb
    · have hih := ih hrest
      cases flag <;> simp [countDecided, hd, List.length_cons] <;> omega

/-! Observation helpers used to state the claims. -/

/-- Is this optional value a string-keyed map (the Go type assertion
v.(map[string]interface) on a present key). -/
def isObjOpt : Option Json → Bool
  | some (.obj _) => true
  | _ => false

/-- Two-level lookup: the value of a key inside a map-valued section,
none when the section is absent or not a map. -/
def lookup2 (m : ObjMap) (k1 k2 : String) : Option Json :=
  match lookupKey m k1 with
  | some (.obj inner) => lookupKey inner k2
  | _ => none

/-- Did the handler write an HTTP error status. -/
def Outcome.isHttpError : Outcome → Bool
  | .httpError _ _ => true
  | _ => false

/-- The allowed flag of the response, when one was sent. -/
def Outcome.allowedOf : Outcome → Option Bool
  | .respond rvw => some rvw.response.allowed
  | _ => none

/-- The result payload of the response, when one was sent. -/
def Outcome.resultOf : Outcome → Option (Option ResultStatus)
  | .respond rvw => some rvw.response.result
  | _ => none

theorem setKey_of_not_has (m : ObjMap) (k : String) (v : Json) (h : hasKey m k = false) :
    setKey m k v = m := by
  induction m with
  | nil => rfl
  | cons p rest ih =>
    obtain ⟨pk, pv⟩ := p
    by_cases hk : pk = k
    · simp [hasKey, hk] at h
    · simp [hasKey, hk] at h
      simp [setKey, hk, ih h]

theorem setKey_lookup_self (m : ObjMap) (k : String) (v : Json)
    (hn : keysNodup m = true) (h : lookupKey m k = some v) : setKey m k v = m := by
  induction m with
  | nil => rfl
  | cons p rest ih =>
    obtain ⟨pk, pv⟩ := p
    simp only [keysNodup, Bool.and_eq_true, Bool.not_eq_true'] at hn
    by_cases hk : pk = k
    · subst hk
      simp [lookupKey] at h
      subst h
      simp [setKey, setKey_of_not_has rest pk pv hn.1]
    · simp only [lookupKey, hk, if_false] at h
      simp [setKey, hk, ih hn.2 h]

theorem deepSubmap_absent (a b : ObjMap) (k : String) (v : Json)
    (hm : (k, v) ∈ a) (hb : lookupKey b k = none) : deepSubmap a b = false := by
  induction a with
  | nil => simp at hm
  | cons p rest ih =>
    obtain ⟨pk, pv⟩ := p
    rcases List.mem_cons.mp hm with h1 | h2
    · obtain ⟨rfl, rfl⟩ := Prod.mk.injEq .. ▸ h1
      simp [deepSubmap, hb]
    · simp [deepSubmap, ih h2]

/-! Concrete fixtures: a tiny envelope decoder and object parser used
by the witnesses and counterexamples. -/

/-- Demo envelope decoder: a handful of fixed bodies. -/
def demoUnmarshal : String → Option Envelope := fun body =>
  if body = "same" then some ⟨some ⟨"uid-1", "Application", "UPDATE", "o", "o"⟩⟩
  else if body = "diff" then some ⟨some ⟨"uid-2", "Application", "UPDATE", "o", "n"⟩⟩
  else if body = "create" then some ⟨some ⟨"uid-3", "Application", "CREATE", "o", "n"⟩⟩
  else if body = "noreq" then some ⟨none⟩
  else if body = "badold" then some ⟨some ⟨"uid-4", "Application", "UPDATE", "bad", "n"⟩⟩
  else if body = "badnew" then some ⟨some ⟨"uid-5", "Application", "UPDATE", "o", "bad"⟩⟩
  else if body = "volatile" then some ⟨some ⟨"uid-6", "Application", "UPDATE", "v1", "v2"⟩⟩
  else if body = "nullmeta" then some ⟨some ⟨"uid-7", "Application", "UPDATE", "mnull", "mempty"⟩⟩
  else if body = "extra1" then some ⟨some ⟨"uid-8", "Application", "UPDATE", "o", "n"⟩⟩
  else if body = "extra2" then some ⟨some ⟨"uid-9", "Application", "UPDATE", "ox", "nx"⟩⟩
  else none

/-- Demo object parser: a handful of fixed raw strings. -/
def demoParse : String → Option ObjMap := fun raw =>
  if raw = "o" then
    some [("metadata", .obj [("name", .str "app")]), ("spec", .obj [("replicas", .num 1)])]
  else if raw = "n" then
    some [("metadata", .obj [("name", .str "app")]), ("spec", .obj [("replicas", .num 2)])]
  else if raw = "v1" then
    some [("metadata", .obj [("name", .str "app"), ("generation", .num 1)]),
          ("status", .obj [("health", .str "ok"), ("reconciledAt", .str "t1")])]
  else if raw = "v2" then
    some [("metadata", .obj [("name", .str "app"), ("generation", .num 2),
            ("managedFields", .arr [.obj [("manager", .str "argocd")]])]),
          ("status", .obj [("health", .str "ok"), ("reconciledAt", .str "t2")])]
  else if raw = "mnull" then some [("metadata", .null)]
  else if raw = "mempty" then some []
  else if raw = "ox" then
    some [("metadata", .obj [("name", .str "app")]), ("spec", .obj [("replicas", .num 1)]),
          ("other", .num 1)]
  else if raw = "nx" then
    some [("metadata", .obj [("name", .str "app")]), ("spec", .obj [("replicas", .num 2)]),
          ("other", .num 2)]
  else none

theorem cleanupMetadata_lookup_ne (obj : ObjMap) (k : String) (hk : k ≠ "metadata") :
    lookupKey (cleanupMetadata obj) k = lookupKey obj k := by
  by_cases hm : ∃ mm, lookupKey obj "metadata" = some (.obj mm)
  · obtain ⟨mm, hmm⟩ := hm
    rw [cleanupMetadata_of_obj obj mm hmm, lookupKey_setKey_ne _ _ _ _ hk]
  · push_neg at hm
    rw [cleanupMetadata_of_not_obj obj hm]

theorem removeReconciledAt_lookup_ne (obj : ObjMap) (k : String) (hk : k ≠ "status") :
    lookupKey (removeReconciledAt obj) k = lookupKey obj k := by
  by_cases hs : ∃ ss, lookupKey obj "status" = some (.obj ss)
  · obtain ⟨ss, hss⟩ := hs
    rw [removeReconciledAt_of_obj obj ss hss, lookupKey_setKey_ne _ _ _ _ hk]
  · push_neg at hs
    rw [removeReconciledAt_of_not_obj obj hs]

theorem lookup2_normalize_managedFields (obj : ObjMap) :
    lookup2 (normalize obj) "metadata" "managedFields" = none := by
  unfold normalize lookup2
  rw [removeReconciledAt_lookup_ne _ _ (by decide)]
  by_cases hm : ∃ mm, lookupKey obj "metadata" = some (.obj mm)
  · obtain ⟨mm, hmm⟩ := hm
    rw [cleanupMetadata_of_obj obj mm hmm, lookupKey_setKey_eq, hmm]
    show lookupKey (eraseKey (eraseKey mm "managedFields") "generation") "managedFields" = none
    rw [lookupKey_eraseKey_ne _ _ _ (by decide), lookupKey_eraseKey_self]
  · push_neg at hm
    rw [cleanupMetadata_of_not_obj obj hm]
    rcases h2 : lookupKey obj "metadata" with _ | v
    · rfl
    · cases v <;> first
        | rfl
        | exact absurd h2 (hm _)

theorem lookup2_normalize_generation (obj : ObjMap) :
    lookup2 (normalize obj) "metadata" "generation" = none := by
  unfold normalize lookup2
  rw [removeReconciledAt_lookup_ne _ _ (by decide)]
  by_cases hm : ∃ mm, lookupKey obj "metadata" = some (.obj mm)
  · obtain ⟨mm, hmm⟩ := hm
    rw [cleanupMetadata_of_obj obj mm hmm, lookupKey_setKey_eq, hmm]
    show lookupKey (eraseKey (eraseKey mm "managedFields") "generation") "generation" = none
    rw [lookupKey_eraseKey_self]
  · push_neg at hm
    rw [cleanupMetadata_of_not_obj obj hm]
    rcases h2 : lookupKey obj "metadata" with _ | v
    · rfl
    · cases v <;> first
        | rfl
        | exact absurd h2 (hm _)

theorem lookup2_normalize_reconciledAt (obj : ObjMap) :
    lookup2 (normalize obj) "status" "reconciledAt" = none := by
  unfold normalize lookup2
  by_cases hs : ∃ ss, lookupKey (cleanupMetadata obj) "status" = some (.obj ss)
  · obtain ⟨ss, hss⟩ := hs
    rw [removeReconciledAt_of_obj _ ss hss, lookupKey_setKey_eq, hss]
    show lookupKey (eraseKey ss "reconciledAt") "reconciledAt" = none
    rw [lookupKey_eraseKey_self]
  · push_neg at hs
    rw [removeReconciledAt_of_not_obj _ hs]
    rcases h2 : lookupKey (cleanupMetadata obj) "status" with _ | v
    · rfl
    · cases v <;> first
        | rfl
        | exact absurd h2 (hs _)

/-! The claims. -/

/-- Claim C2: for every request whose operation is not UPDATE or whose
kind is not the watched kind Application, the engine returns
allowed=true with the echoed identifier and no result, for every
parser (the objects are never parsed) and with the counters
untouched. -/
theorem c2_passthrough
    (u : String → Option Envelope) (p : String → Option ObjMap)
    (body : String) (env : Envelope) (req : AdmissionRequest) (m : Metrics)
    (hu : u body = some env) (hr : env.request = some req)
    (hor : req.operation ≠ "UPDATE" ∨ req.kindKind ≠ "Application") :
    handleAdmissionReview u p body m = (.respond (wrapReview ⟨req.uid, true, none⟩), m) :=
  handle_passthrough u p body env req m hu hr hor

/-- Witness for C2 at a concrete CREATE request. -/
theorem c2_passthrough_witness :
    handleAdmissionReview demoUnmarshal demoParse "create" ⟨0, 0⟩ =
      (.respond (wrapReview ⟨"uid-3", true, none⟩), ⟨0, 0⟩) :=
  c2_passthrough demoUnmarshal demoParse "create"
    ⟨some ⟨"uid-3", "Application", "CREATE", "o", "n"⟩⟩
    ⟨"uid-3", "Application", "CREATE", "o", "n"⟩ ⟨0, 0⟩ rfl rfl (Or.inl (by decide))

/-- Claim C4: normalization is idempotent on every object tree, and so
is each of its two passes separately. -/
theorem c4_normalize_idem (obj : ObjMap) :
    normalize (normalize obj) = normalize obj
    ∧ cleanupMetadata (cleanupMetadata obj) = cleanupMetadata obj
    ∧ removeReconciledAt (removeReconciledAt obj) = removeReconciledAt obj :=
  ⟨normalize_idem_aux obj, cleanupMetadata_idem obj, removeReconciledAt_idem obj⟩

/-- Claim C6: whenever an AdmissionResponse is produced — pass-through,
allow, or deny — its UID equals the UID of the incoming request. -/
theorem c6_uid_echo
    (u : String → Option Envelope) (p : String → Option ObjMap)
    (body : String) (env : Envelope) (req : AdmissionRequest) (m : Metrics)
    (hu : u body = some env) (hr : env.request = some req) :
    ∀ rvw, (handleAdmissionReview u p body m).1 = .respond rvw →
      rvw.response.uid = req.uid := by
  intro rvw hresp
  by_cases hmix : req.operation ≠ "UPDATE" ∨ req.kindKind ≠ "Application"
  · rw [handle_passthrough u p body env req m hu hr hmix] at hresp
    simp only [Outcome.respond.injEq] at hresp
    rw [← hresp]
    rfl
  · push_neg at hmix
    obtain ⟨hop, hk⟩ := hmix
    rcases hpo : p req.oldObjectRaw with _ | oldObj
    · rw [handle_parse_old_err u p body env req m hu hr hop hk hpo] at hresp
      simp at hresp
    · rcases hpn : p req.objectRaw with _ | newObj
      · rw [handle_parse_new_err u p body env req oldObj m hu hr hop hk hpo hpn] at hresp
        simp at hresp
      · rw [handle_decided u p body env req oldObj newObj m hu hr hop hk hpo hpn] at hresp
        by_cases hflag : (sectionEq (normalize oldObj) (normalize newObj) "metadata"
            && sectionEq (normalize oldObj) (normalize newObj) "spec"
            && sectionEq (normalize oldObj) (normalize newObj) "status") = true
        · rw [if_pos hflag] at hresp
          simp only [Outcome.respond.injEq] at hresp
          rw [← hresp]
          rfl
        · rw [if_neg hflag] at hresp
          simp only [Outcome.respond.injEq] at hresp
          rw [← hresp]
          rfl

/-- Witness for C6 at a concrete denied update. -/
theorem c6_uid_echo_witness :
    (handleAdmissionReview demoUnmarshal demoParse "same" ⟨0, 0⟩).1 =
      .respond (wrapReview ⟨"uid-1", false, some ⟨"Success", "Update successful.", 200⟩⟩)
    ∧ (wrapReview ⟨"uid-1", false,
        some ⟨"Success", "Update successful.", 200⟩⟩).response.uid = "uid-1" := by
  refine ⟨rfl, ?_⟩
  exact c6_uid_echo demoUnmarshal demoParse "same"
    ⟨some ⟨"uid-1", "Application", "UPDATE", "o", "o"⟩⟩
    ⟨"uid-1", "Application", "UPDATE", "o", "o"⟩ ⟨0, 0⟩ rfl rfl
    (wrapReview ⟨"uid-1", false, some ⟨"Success", "Update successful.", 200⟩⟩) rfl

/-- Claim C10: normalization touches nothing outside the three volatile
paths.  When the metadata (resp. status) entry is absent or not a
string-keyed map, cleanupMetadata (resp. removeReconciledAt) is the
identity; top-level keys other than metadata (resp. status) keep their
exact value; and inside the metadata (resp. status) map every key
other than managedFields and generation (resp. reconciledAt) keeps its
exact value. -/
theorem c10_frame (m : ObjMap) :
    (isObjOpt (lookupKey m "metadata") = false → cleanupMetadata m = m)
    ∧ (isObjOpt (lookupKey m "status") = false → removeReconciledAt m = m)
    ∧ (∀ k, k ≠ "metadata" → lookupKey (cleanupMetadata m) k = lookupKey m k)
    ∧ (∀ k, k ≠ "status" → lookupKey (removeReconciledAt m) k = lookupKey m k)
    ∧ (∀ k, k ≠ "managedFields" → k ≠ "generation" →
        lookup2 (cleanupMetadata m) "metadata" k = lookup2 m "metadata" k)
    ∧ (∀ k, k ≠ "reconciledAt" →
        lookup2 (removeReconciledAt m) "status" k = lookup2 m "status" k) := by
  refine ⟨?_, ?_, ?_, ?_, ?_, ?_⟩
  · intro h
    apply cleanupMetadata_of_not_obj
    intro mm hmm
    rw [hmm] at h
    simp [isObjOpt] at h
  · intro h
    apply removeReconciledAt_of_not_obj
    intro ss hss
    rw [hss] at h
    simp [isObjOpt] at h
  · intro k hk
    by_cases hm : ∃ mm, lookupKey m "metadata" = some (.obj mm)
    · obtain ⟨mm, hmm⟩ := hm
      rw [cleanupMetadata_of_obj m mm hmm, lookupKey_setKey_ne _ _ _ _ hk]
    · push_neg at hm
      rw [cleanupMetadata_of_not_obj m hm]
  · intro k hk
    by_cases hs : ∃ ss, lookupKey m "status" = some (.obj ss)
    · obtain ⟨ss, hss⟩ := hs
      rw [removeReconciledAt_of_obj m ss hss, lookupKey_setKey_ne _ _ _ _ hk]
    · push_neg at hs
      rw [removeReconciledAt_of_not_obj m hs]
  · intro k hk1 hk2
    by_cases hm : ∃ mm, lookupKey m "metadata" = some (.obj mm)
    · obtain ⟨mm, hmm⟩ := hm
      rw [cleanupMetadata_of_obj m mm hmm]
      unfold lookup2
      rw [lookupKey_setKey_eq, hmm]
      show lookupKey (eraseKey (eraseKey mm "managedFields") "generation") k = lookupKey mm k
      rw [lookupKey_eraseKey_ne _ _ _ hk2, lookupKey_eraseKey_ne _ _ _ hk1]
    · push_neg at hm
      rw [cleanupMetadata_of_not_obj m hm]
  · intro k hk
    by_cases hs : ∃ ss, lookupKey m "status" = some (.obj ss)
    · obtain ⟨ss, hss⟩ := hs
      rw [removeReconciledAt_of_obj m ss hss]
      unfold lookup2
      rw [lookupKey_setKey_eq, hss]
      show lookupKey (eraseKey ss "reconciledAt") k = lookupKey ss k
      rw [lookupKey_eraseKey_ne _ _ _ hk]
    · push_neg at hs
      rw [removeReconciledAt_of_not_obj m hs]

/-- Witness for C10 at a concrete tree carrying volatile and
non-volatile fields. -/
theorem c10_frame_witness :
    lookupKey (cleanupMetadata
        [("metadata", .obj [("name", .str "app"), ("generation", .num 3)]), ("x", .num 7)]) "x"
      = lookupKey
        [("metadata", .obj [("name", .str "app"), ("generation", .num 3)]), ("x", .num 7)] "x"
    ∧ lookup2 (cleanupMetadata
        [("metadata", .obj [("name", .str "app"), ("generation", .num 3)]), ("x", .num 7)])
        "metadata" "name"
      = lookup2
        [("metadata", .obj [("name", .str "app"), ("generation", .num 3)]), ("x", .num 7)]
        "metadata" "name" := by
  refine ⟨?_, ?_⟩
  · exact (c10_frame _).2.2.1 "x" (by decide)
  · exact (c10_frame _).2.2.2.2.1 "name" (by decide) (by decide)

/-- Claim C1: for every UPDATE request on the watched kind Application
whose old and new objects both parse, the response is allowed=false
with result status Success, message Update successful., code 200 if
and only if the normalized trees are deeply equal on metadata, spec
and status; otherwise allowed=true with no result.  In particular
byte-identical raws (for a well-formed parse result, as json.Unmarshal
guarantees) are denied. -/
theorem c1_decision
    (u : String → Option Envelope) (p : String → Option ObjMap)
    (body : String) (env : Envelope) (req : AdmissionRequest)
    (oldObj newObj : ObjMap) (m : Metrics)
    (hu : u body = some env) (hr : env.request = some req)
    (hop : req.operation = "UPDATE") (hk : req.kindKind = "Application")
    (ho : p req.oldObjectRaw = some oldObj) (hn : p req.objectRaw = some newObj) :
    ((handleAdmissionReview u p body m).1 =
        .respond (wrapReview ⟨req.uid, false, some ⟨"Success", "Update successful.", 200⟩⟩)
      ↔ (sectionEq (normalize oldObj) (normalize newObj) "metadata" = true
          ∧ sectionEq (normalize oldObj) (normalize newObj) "spec" = true
          ∧ sectionEq (normalize oldObj) (normalize newObj) "status" = true))
    ∧ (¬(sectionEq (normalize oldObj) (normalize newObj) "metadata" = true
          ∧ sectionEq (normalize oldObj) (normalize newObj) "spec" = true
          ∧ sectionEq (normalize oldObj) (normalize newObj) "status" = true) →
        (handleAdmissionReview u p body m).1 = .respond (wrapReview ⟨req.uid, true, none⟩))
    ∧ (req.oldObjectRaw = req.objectRaw → Json.wf (.obj oldObj) = true →
        (handleAdmissionReview u p body m).1 =
          .respond (wrapReview ⟨req.uid, false, some ⟨"Success", "Update successful.", 200⟩⟩)) := by
  have hd := handle_decided u p body env req oldObj newObj m hu hr hop hk ho hn
  have hbyte : req.oldObjectRaw = req.objectRaw → newObj = oldObj := by
    intro hraw
    rw [hraw, hn] at ho
    exact Option.some.injEq _ _ ▸ ho
  have hrefl : Json.wf (.obj oldObj) = true →
      ∀ s, sectionEq (normalize oldObj) (normalize oldObj) s = true := fun hwf s =>
    deepEqual_refl _ (wf_goIndex _ s (wf_normalize _ hwf))
  by_cases hflag : (sectionEq (normalize oldObj) (normalize newObj) "metadata"
      && sectionEq (normalize oldObj) (normalize newObj) "spec"
      && sectionEq (normalize oldObj) (normalize newObj) "status") = true
  · have h3 : sectionEq (normalize oldObj) (normalize newObj) "metadata" = true
        ∧ sectionEq (normalize oldObj) (normalize newObj) "spec" = true
        ∧ sectionEq (normalize oldObj) (normalize newObj) "status" = true := by
      simpa [Bool.and_eq_true, and_assoc] using hflag
    refine ⟨⟨fun _ => h3, fun _ => ?_⟩, fun hcon => absurd h3 hcon, fun _ _ => ?_⟩
    · rw [hd, if_pos hflag]
    · rw [hd, if_pos hflag]
  · have h3 : ¬(sectionEq (normalize oldObj) (normalize newObj) "metadata" = true
        ∧ sectionEq (normalize oldObj) (normalize newObj) "spec" = true
        ∧ sectionEq (normalize oldObj) (normalize newObj) "status" = true) := by
      intro hc
      apply hflag
      simp [Bool.and_eq_true, hc.1, hc.2.1, hc.2.2]
    refine ⟨⟨fun habs => ?_, fun hc => absurd hc h3⟩, fun _ => ?_, fun hraw hwf => ?_⟩
    · exfalso
      rw [hd, if_neg hflag] at habs
      simp [wrapReview] at habs
    · rw [hd, if_neg hflag]
    · exfalso
      apply hflag
      have hno : newObj = oldObj := hbyte hraw
      subst hno
      simp [hrefl hwf]

/-- Witness for C1 at a concrete byte-identical update, exercising the
denial branch through the byte-identical conjunct. -/
theorem c1_decision_witness :
    (handleAdmissionReview demoUnmarshal demoParse "same" ⟨0, 0⟩).1 =
      .respond (wrapReview ⟨"uid-1", false, some ⟨"Success", "Update successful.", 200⟩⟩) :=
  (c1_decision demoUnmarshal demoParse "same"
    ⟨some ⟨"uid-1", "Application", "UPDATE", "o", "o"⟩⟩
    ⟨"uid-1", "Application", "UPDATE", "o", "o"⟩
    [("metadata", .obj [("name", .str "app")]), ("spec", .obj [("replicas", .num 1)])]
    [("metadata", .obj [("name", .str "app")]), ("spec", .obj [("replicas", .num 1)])]
    ⟨0, 0⟩ rfl rfl rfl rfl rfl rfl).2.2 rfl (by decide)

/-- Claim C3: an UPDATE on the watched kind whose old and new objects
coincide after removal of the volatile paths is denied with code 200
(and counted as unchanged); normalization leaves no managedFields or
generation under metadata and no reconciledAt under status; and on an
object already lacking those paths normalization is the identity, not
an error. -/
theorem c3_volatile
    (u : String → Option Envelope) (p : String → Option ObjMap)
    (body : String) (env : Envelope) (req : AdmissionRequest)
    (oldObj newObj : ObjMap) (m : Metrics)
    (hu : u body = some env) (hr : env.request = some req)
    (hop : req.operation = "UPDATE") (hk : req.kindKind = "Application")
    (ho : p req.oldObjectRaw = some oldObj) (hn : p req.objectRaw = some newObj)
    (hwf : Json.wf (.obj oldObj) = true)
    (heq : normalize oldObj = normalize newObj) :
    handleAdmissionReview u p body m =
      (.respond (wrapReview ⟨req.uid, false, some ⟨"Success", "Update successful.", 200⟩⟩),
       ⟨m.processedTrue, m.processedFalse + 1⟩)
    ∧ lookup2 (normalize oldObj) "metadata" "managedFields" = none
    ∧ lookup2 (normalize oldObj) "metadata" "generation" = none
    ∧ lookup2 (normalize oldObj) "status" "reconciledAt" = none
    ∧ ((∀ mm, lookupKey oldObj "metadata" = some (.obj mm) →
          hasKey mm "managedFields" = false ∧ hasKey mm "generation" = false) →
       (∀ ss, lookupKey oldObj "status" = some (.obj ss) →
          hasKey ss "reconciledAt" = false) →
       normalize oldObj = oldObj) := by
  have hrefl : ∀ s, sectionEq (normalize oldObj) (normalize newObj) s = true := by
    intro s
    rw [← heq]
    exact deepEqual_refl _ (wf_goIndex _ s (wf_normalize _ hwf))
  have hflag : (sectionEq (normalize oldObj) (normalize newObj) "metadata"
      && sectionEq (normalize oldObj) (normalize newObj) "spec"
      && sectionEq (normalize oldObj) (normalize newObj) "status") = true := by
    simp [hrefl]
  have hnodup : keysNodup oldObj = true := by
    have := hwf
    simp only [Json.wf, Bool.and_eq_true] at this
    exact this.1
  refine ⟨?_, lookup2_normalize_managedFields oldObj, lookup2_normalize_generation oldObj,
    lookup2_normalize_reconciledAt oldObj, ?_⟩
  · rw [handle_decided u p body env req oldObj newObj m hu hr hop hk ho hn, if_pos hflag]
  · intro hmeta hstat
    have hc : cleanupMetadata oldObj = oldObj := by
      by_cases hm : ∃ mm, lookupKey oldObj "metadata" = some (.obj mm)
      · obtain ⟨mm, hmm⟩ := hm
        obtain ⟨h1, h2⟩ := hmeta mm hmm
        rw [cleanupMetadata_of_obj oldObj mm hmm, eraseKey_of_not_has _ _ h1,
          eraseKey_of_not_has _ _ h2]
        exact setKey_lookup_self oldObj "metadata" (.obj mm) hnodup hmm
      · push_neg at hm
        exact cleanupMetadata_of_not_obj oldObj hm
    have hrem : removeReconciledAt oldObj = oldObj := by
      by_cases hs : ∃ ss, lookupKey oldObj "status" = some (.obj ss)
      · obtain ⟨ss, hss⟩ := hs
        have h1 := hstat ss hss
        rw [removeReconciledAt_of_obj oldObj ss hss, eraseKey_of_not_has _ _ h1]
        exact setKey_lookup_self oldObj "status" (.obj ss) hnodup hss
      · push_neg at hs
        exact removeReconciledAt_of_not_obj oldObj hs
    unfold normalize
    rw [hc, hrem]

/-- Witness for C3 at a concrete update differing only in generation,
managedFields and reconciledAt. -/
theorem c3_volatile_witness :
    handleAdmissionReview demoUnmarshal demoParse "volatile" ⟨0, 0⟩ =
      (.respond (wrapReview ⟨"uid-6", false, some ⟨"Success", "Update successful.", 200⟩⟩),
       ⟨0, 1⟩) :=
  (c3_volatile demoUnmarshal demoParse "volatile"
    ⟨some ⟨"uid-6", "Application", "UPDATE", "v1", "v2"⟩⟩
    ⟨"uid-6", "Application", "UPDATE", "v1", "v2"⟩
    [("metadata", .obj [("name", .str "app"), ("generation", .num 1)]),
     ("status", .obj [("health", .str "ok"), ("reconciledAt", .str "t1")])]
    [("metadata", .obj [("name", .str "app"), ("generation", .num 2),
        ("managedFields", .arr [.obj [("manager", .str "argocd")]])]),
     ("status", .obj [("health", .str "ok"), ("reconciledAt", .str "t2")])]
    ⟨0, 0⟩ rfl rfl rfl rfl rfl rfl (by decide) rfl).1

/-- Counterexample to claim C5: the old object carries metadata with an
explicit JSON null value and the new object lacks it entirely — the
section is present in one and absent in the other, yet the change
detection reports equality (because Go map indexing returns the nil
interface for a missing key, which is also how an explicit null is
stored), and the full handler consequently denies the update. -/
theorem c5_counterexample :
    lookupKey [("metadata", Json.null)] "metadata" = some Json.null
    ∧ lookupKey ([] : ObjMap) "metadata" = none
    ∧ sectionEq (normalize [("metadata", Json.null)]) (normalize []) "metadata" = true
    ∧ (handleAdmissionReview demoUnmarshal demoParse "nullmeta" ⟨0, 0⟩).1 =
        .respond (wrapReview ⟨"uid-7", false, some ⟨"Success", "Update successful.", 200⟩⟩) :=
  ⟨rfl, rfl, rfl, rfl⟩

/-- Claim C5 as amended: a section absent in both trees is equal; a
section bound to a non-null value in one tree and absent in the other
is changed; but a section bound to an explicit JSON null is
indistinguishable from an absent one at the top level (both read back
as the nil interface), so such a pair counts as unchanged; inside
nested maps an explicit null binding is distinguished from an absent
key. -/
theorem c5_section_flags (o n : ObjMap) (s : String) :
    (lookupKey o s = none → lookupKey n s = none → sectionEq o n s = true)
    ∧ (∀ v, lookupKey o s = some v → v ≠ .null → lookupKey n s = none →
        sectionEq o n s = false)
    ∧ (∀ v, lookupKey o s = none → lookupKey n s = some v → v ≠ .null →
        sectionEq o n s = false)
    ∧ (lookupKey o s = some .null → lookupKey n s = none → sectionEq o n s = true)
    ∧ (∀ a b k v, (k, v) ∈ a → lookupKey b k = none →
        deepEqual (.obj a) (.obj b) = false) := by
  refine ⟨?_, ?_, ?_, ?_, ?_⟩
  · intro h1 h2
    simp [sectionEq, goIndex, h1, h2, deepEqual]
  · intro v h1 hv h2
    unfold sectionEq goIndex
    rw [h1, h2]
    cases v <;> simp [deepEqual] at hv ⊢
  · intro v h1 h2 hv
    unfold sectionEq goIndex
    rw [h1, h2]
    cases v <;> simp [deepEqual] at hv ⊢
  · intro h1 h2
    simp [sectionEq, goIndex, h1, h2, deepEqual]
  · intro a b k v hm hb
    simp [deepEqual, deepSubmap_absent a b k v hm hb]

/-- Witness for the amended C5 at concrete sections. -/
theorem c5_section_flags_witness :
    sectionEq [("spec", .num 1)] [] "metadata" = true
    ∧ sectionEq [("metadata", .obj [])] [] "metadata" = false
    ∧ sectionEq [("metadata", Json.null)] [] "metadata" = true
    ∧ deepEqual (.obj [("a", Json.null)]) (.obj []) = false := by
  refine ⟨?_, ?_, ?_, ?_⟩
  · exact (c5_section_flags [("spec", .num 1)] [] "metadata").1 rfl rfl
  · exact (c5_section_flags [("metadata", .obj [])] [] "metadata").2.1
      (.obj []) rfl (by simp) rfl
  · exact (c5_section_flags [("metadata", Json.null)] [] "metadata").2.2.2.1 rfl rfl
  · exact (c5_section_flags [] [] "x").2.2.2.2 [("a", Json.null)] [] "a" Json.null
      (by simp) rfl

/-- Counterexample to claim C7: a well-formed envelope with no request
field does not produce an HTTP 4xx/5xx transport error — the handler
dereferences the nil Request pointer (line 78 of main.go) and panics,
so the Go http server drops the connection without any HTTP status. -/
theorem c7_counterexample :
    handleAdmissionReview demoUnmarshal demoParse "noreq" ⟨0, 0⟩ = (.nilPanic, ⟨0, 0⟩)
    ∧ Outcome.isHttpError (handleAdmissionReview demoUnmarshal demoParse "noreq" ⟨0, 0⟩).1
        = false :=
  ⟨rfl, rfl⟩

/-- Claim C7 as amended: a body that fails to unmarshal yields HTTP 400
with no AdmissionResponse; on the decision path (UPDATE of the watched
kind) an old or new object that fails to parse yields HTTP 500 with no
AdmissionResponse (on any other path the objects are never parsed and
the request is allowed through); a well-formed envelope with no
request field makes the handler panic on the nil Request dereference —
no AdmissionResponse and no HTTP error status; in every such case the
counters are untouched, the failure being local to the one request. -/
theorem c7_errors
    (u : String → Option Envelope) (p : String → Option ObjMap)
    (body : String) (m : Metrics) :
    (u body = none →
      handleAdmissionReview u p body m = (.httpError 400 "failed to unmarshal request", m))
    ∧ (∀ env, u body = some env → env.request = none →
        handleAdmissionReview u p body m = (.nilPanic, m))
    ∧ (∀ env req, u body = some env → env.request = some req →
        req.operation = "UPDATE" → req.kindKind = "Application" →
        p req.oldObjectRaw = none →
        handleAdmissionReview u p body m = (.httpError 500 "failed to parse old object", m))
    ∧ (∀ env req oldObj, u body = some env → env.request = some req →
        req.operation = "UPDATE" → req.kindKind = "Application" →
        p req.oldObjectRaw = some oldObj → p req.objectRaw = none →
        handleAdmissionReview u p body m = (.httpError 500 "failed to parse new object", m)) := by
  refine ⟨?_, ?_, ?_, ?_⟩
  · intro hu
    exact handle_unmarshal_err u p body m hu
  · intro env hu hr
    exact handle_nil_request u p body env m hu hr
  · intro env req hu hr hop hk ho
    exact handle_parse_old_err u p body env req m hu hr hop hk ho
  · intro env req oldObj hu hr hop hk ho hn
    exact handle_parse_new_err u p body env req oldObj m hu hr hop hk ho hn

/-- Witness for the amended C7 at concrete failing inputs. -/
theorem c7_errors_witness :
    handleAdmissionReview demoUnmarshal demoParse "garbage" ⟨0, 0⟩ =
      (.httpError 400 "failed to unmarshal request", ⟨0, 0⟩)
    ∧ handleAdmissionReview demoUnmarshal demoParse "noreq" ⟨2, 3⟩ = (.nilPanic, ⟨2, 3⟩)
    ∧ handleAdmissionReview demoUnmarshal demoParse "badold" ⟨0, 0⟩ =
        (.httpError 500 "failed to parse old object", ⟨0, 0⟩)
    ∧ handleAdmissionReview demoUnmarshal demoParse "badnew" ⟨0, 0⟩ =
        (.httpError 500 "failed to parse new object", ⟨0, 0⟩) := by
  refine ⟨?_, ?_, ?_, ?_⟩
  · exact (c7_errors demoUnmarshal demoParse "garbage" ⟨0, 0⟩).1 rfl
  · exact (c7_errors demoUnmarshal demoParse "noreq" ⟨2, 3⟩).2.1 ⟨none⟩ rfl rfl
  · exact (c7_errors demoUnmarshal demoParse "badold" ⟨0, 0⟩).2.2.1
      ⟨some ⟨"uid-4", "Application", "UPDATE", "bad", "n"⟩⟩
      ⟨"uid-4", "Application", "UPDATE", "bad", "n"⟩ rfl rfl rfl rfl rfl
  · exact (c7_errors demoUnmarshal demoParse "badnew" ⟨0, 0⟩).2.2.2
      ⟨some ⟨"uid-5", "Application", "UPDATE", "o", "bad"⟩⟩
      ⟨"uid-5", "Application", "UPDATE", "o", "bad"⟩
      [("metadata", .obj [("name", .str "app")]), ("spec", .obj [("replicas", .num 1)])]
      rfl rfl rfl rfl rfl rfl

/-- Claim C8: every request that reaches the decision path increments
exactly one processed-total counter, the one labeled by whether any of
the three change flags was true; hence a run of N decided requests of
which M were changed leaves the true-labeled counter at M and the
false-labeled counter at N - M. -/
theorem c8_counters
    (u : String → Option Envelope) (p : String → Option ObjMap)
    (bodies : List String)
    (hdec : ∀ b ∈ bodies, decisionLabel u p b ≠ none) :
    (∀ body m0 flag, decisionLabel u p body = some flag →
      (handleAdmissionReview u p body m0).2 =
        if flag then ⟨m0.processedTrue + 1, m0.processedFalse⟩
        else ⟨m0.processedTrue, m0.processedFalse + 1⟩)
    ∧ runRequests u p bodies ⟨0, 0⟩ =
        ⟨countDecided u p true bodies,
         bodies.length - countDecided u p true bodies⟩ := by
  constructor
  · intro body m0 flag hflag
    rw [handle_metrics u p body m0, hflag]
    cases flag <;> rfl
  · have htot := countDecided_total u p bodies hdec
    rw [runRequests_spec u p bodies ⟨0, 0⟩]
    have : countDecided u p false bodies = bodies.length - countDecided u p true bodies := by
      omega
    simp [this]

/-- Witness for C8: two decided requests, one changed and one
unchanged, leave the counters at one each. -/
theorem c8_counters_witness :
    runRequests demoUnmarshal demoParse ["same", "diff"] ⟨0, 0⟩ = ⟨1, 1⟩ :=
  (c8_counters demoUnmarshal demoParse ["same", "diff"] (by decide)).2

/-- Claim C9: the decision depends only on the three normalized
sections — two decided UPDATE requests on the watched kind whose
normalized old trees agree and whose normalized new trees agree on
metadata, spec and status receive the same allowed flag and the same
result payload, whatever their other top-level keys. -/
theorem c9_noninterference
    (u : String → Option Envelope) (p : String → Option ObjMap)
    (b1 b2 : String) (env1 env2 : Envelope) (req1 req2 : AdmissionRequest)
    (o1 n1 o2 n2 : ObjMap) (m1 m2 : Metrics)
    (hu1 : u b1 = some env1) (hr1 : env1.request = some req1)
    (hop1 : req1.operation = "UPDATE") (hk1 : req1.kindKind = "Application")
    (ho1 : p req1.oldObjectRaw = some o1) (hn1 : p req1.objectRaw = some n1)
    (hu2 : u b2 = some env2) (hr2 : env2.request = some req2)
    (hop2 : req2.operation = "UPDATE") (hk2 : req2.kindKind = "Application")
    (ho2 : p req2.oldObjectRaw = some o2) (hn2 : p req2.objectRaw = some n2)
    (hagree : ∀ s, s = "metadata" ∨ s = "spec" ∨ s = "status" →
        goIndex (normalize o1) s = goIndex (normalize o2) s
        ∧ goIndex (normalize n1) s = goIndex (normalize n2) s) :
    Outcome.allowedOf (handleAdmissionReview u p b1 m1).1 =
      Outcome.allowedOf (handleAdmissionReview u p b2 m2).1
    ∧ Outcome.resultOf (handleAdmissionReview u p b1 m1).1 =
      Outcome.resultOf (handleAdmissionReview u p b2 m2).1 := by
  have hsec : ∀ s, s = "metadata" ∨ s = "spec" ∨ s = "status" →
      sectionEq (normalize o1) (normalize n1) s = sectionEq (normalize o2) (normalize n2) s := by
    intro s hs
    obtain ⟨h1, h2⟩ := hagree s hs
    unfold sectionEq
    rw [h1, h2]
  rw [handle_decided u p b1 env1 req1 o1 n1 m1 hu1 hr1 hop1 hk1 ho1 hn1,
    handle_decided u p b2 env2 req2 o2 n2 m2 hu2 hr2 hop2 hk2 ho2 hn2,
    hsec "metadata" (Or.inl rfl), hsec "spec" (Or.inr (Or.inl rfl)),
    hsec "status" (Or.inr (Or.inr rfl))]
  by_cases hflag : (sectionEq (normalize o2) (normalize n2) "metadata"
      && sectionEq (normalize o2) (normalize n2) "spec"
      && sectionEq (normalize o2) (normalize n2) "status") = true
  · rw [if_pos hflag, if_pos hflag]
    exact ⟨rfl, rfl⟩
  · rw [if_neg hflag, if_neg hflag]
    exact ⟨rfl, rfl⟩

/-- Witness for C9: two updates differing in an unrelated top-level
key receive identical decisions. -/
theorem c9_noninterference_witness :
    Outcome.allowedOf (handleAdmissionReview demoUnmarshal demoParse "extra1" ⟨0, 0⟩).1 =
      Outcome.allowedOf (handleAdmissionReview demoUnmarshal demoParse "extra2" ⟨0, 0⟩).1
    ∧ Outcome.resultOf (handleAdmissionReview demoUnmarshal demoParse "extra1" ⟨0, 0⟩).1 =
      Outcome.resultOf (handleAdmissionReview demoUnmarshal demoParse "extra2" ⟨0, 0⟩).1 :=
  c9_noninterference demoUnmarshal demoParse "extra1" "extra2"
    ⟨some ⟨"uid-8", "Application", "UPDATE", "o", "n"⟩⟩
    ⟨some ⟨"uid-9", "Application", "UPDATE", "ox", "nx"⟩⟩
    ⟨"uid-8", "Application", "UPDATE", "o", "n"⟩
    ⟨"uid-9", "Application", "UPDATE", "ox", "nx"⟩
    [("metadata", .obj [("name", .str "app")]), ("spec", .obj [("replicas", .num 1)])]
    [("metadata", .obj [("name", .str "app")]), ("spec", .obj [("replicas", .num 2)])]
    [("metadata", .obj [("name", .str "app")]), ("spec", .obj [("replicas", .num 1)]),
     ("other", .num 1)]
    [("metadata", .obj [("name", .str "app")]), ("spec", .obj [("replicas", .num 2)]),
     ("other", .num 2)]
    ⟨0, 0⟩ ⟨0, 0⟩ rfl rfl rfl rfl rfl rfl rfl rfl rfl rfl rfl rfl
    (by intro s hs; rcases hs with rfl | rfl | rfl <;> exact ⟨rfl, rfl⟩)

end GrafanaWebhook
